import Mathlib

/-
Verification of the RPN calculator core in `src/main.rs`.

The evaluator (`parse`), the operator registry (`operator`), the renderer
(`Res::render`) and the one-shot entry path of `main` are shallowly embedded
below.  Rust `i64` values are modelled as unbounded `Int`; none of the
verified properties depends on add/mul overflow, and the two places where the
Rust code can abort the process (the `.unwrap()` on an empty-stack fold, and
`i64` division by zero) are modelled explicitly as `Except.error` outcomes of
kind `PanicKind`, so that "the process panics" is an observable result of the
embedding.  Stacks are lists whose *last* element is the top, mirroring
`Vec<i64>` with `push`/`pop` at the end.
-/

set_option autoImplicit false

namespace RpnCalc

/-- A way the Rust program can abort instead of returning a `Res`. -/
inductive PanicKind where
  /-- `Option::unwrap` called on `None` (the empty-stack fold). -/
  | unwrapNone
  /-- `i64` division with divisor `0`. -/
  | divByZero
deriving DecidableEq

/-- Display format, from `enum IntFormat { Dec, Hex }`; the default is `Dec`. -/
inductive IntFormat where
  | Dec
  | Hex
deriving DecidableEq

/-- Evaluation result, from `struct Res { stack, err, int_format }`. -/
structure Res where
  stack : List Int
  err : Option String
  int_format : IntFormat
deriving DecidableEq

/-- The three binary operations the registry can return.  The Rust code
returns function pointers (`Add::add`, `Mul::mul`, `Div::div`); we name them
and apply them through `applyOp`. -/
inductive BinOp where
  | add
  | mul
  | div
deriving DecidableEq

/-- The operator registry, from `fn operator(op: &str)`.  Tokens are modelled
as `List Char`, so the string patterns `"p"`, `"+"`, ... become singleton
char-list patterns. -/
def operator (op : List Char) : Option BinOp :=
  match op with
  | ['p'] => some BinOp.add
  | ['+'] => some BinOp.add
  | ['m'] => some BinOp.mul
  | ['*'] => some BinOp.mul
  | ['d'] => some BinOp.div
  | _ => none

/-- Application of a registry operation.  `Int.div` truncates toward zero,
matching Rust `i64` division; a zero divisor panics in Rust and is an
`Except.error PanicKind.divByZero` here. -/
def applyOp : BinOp → Int → Int → Except PanicKind Int
  | BinOp.add, a, b => Except.ok (a + b)
  | BinOp.mul, a, b => Except.ok (a * b)
  | BinOp.div, a, b => if b = 0 then Except.error PanicKind.divByZero else Except.ok (Int.tdiv a b)

/-- Decimal digit value of a char, as accepted by `i64::from_str` (base 10). -/
def decDigit? (c : Char) : Option Nat :=
  if '0' ≤ c ∧ c ≤ '9' then some (c.toNat - 48) else none

/-- Hexadecimal digit value of a char, as accepted by
`i64::from_str_radix(_, 16)` (both letter cases). -/
def hexDigit? (c : Char) : Option Nat :=
  if '0' ≤ c ∧ c ≤ '9' then some (c.toNat - 48)
  else if 'a' ≤ c ∧ c ≤ 'f' then some (c.toNat - 87)
  else if 'A' ≤ c ∧ c ≤ 'F' then some (c.toNat - 55)
  else none

/-- Value of a digit string read most-significant first. -/
def digitsVal (base : Nat) (ds : List Nat) : Nat :=
  ds.foldl (fun acc d => acc * base + d) 0

/-- Smallest `i64` value. -/
def i64Min : Int := -(2 ^ 63)

/-- Largest `i64` value. -/
def i64Max : Int := 2 ^ 63 - 1

/-- Digit values of a char run, `none` as soon as one char is not a digit. -/
def digitsOf? (digit? : Char → Option Nat) : List Char → Option (List Nat)
  | [] => some []
  | c :: cs =>
    match digit? c with
    | none => none
    | some d =>
      match digitsOf? digit? cs with
      | none => none
      | some ds => some (d :: ds)

/-- Core of `i64::from_str` and `i64::from_str_radix` after the optional
sign: a non-empty run of digits, rejected when the signed value falls
outside the `i64` range (Rust's parsers error on overflow rather than
wrap). -/
def parseDigitsRange (digit? : Char → Option Nat) (base : Nat) (sign : Int)
    (ds : List Char) : Option Int :=
  if ds.isEmpty then none
  else
    match digitsOf? digit? ds with
    | none => none
    | some vs =>
      let v : Int := sign * (digitsVal base vs : Nat)
      if i64Min ≤ v ∧ v ≤ i64Max then some v else none

/-- Shared shape of `i64::from_str` and `i64::from_str_radix`: an optional
leading `+` or `-`, then the digit run. -/
def parseSignedRadix (digit? : Char → Option Nat) (base : Nat) (s : List Char) : Option Int :=
  match s with
  | '+' :: rest => parseDigitsRange digit? base 1 rest
  | '-' :: rest => parseDigitsRange digit? base (-1) rest
  | _ => parseDigitsRange digit? base 1 s

/-- The hex-literal branch of `parse`: `x.strip_prefix("0x")` followed by
`i64::from_str_radix(x, 16)`; `none` when either step fails. -/
def hexLit? (x : List Char) : Option Int :=
  match x with
  | '0' :: 'x' :: rest => parseSignedRadix hexDigit? 16 rest
  | _ => none

/-- The decimal-literal branch of `parse`: `x.parse::<i64>()`. -/
def decLit? (x : List Char) : Option Int := parseSignedRadix decDigit? 10 x

/-- `str::is_ascii`: every char is below code point 128. -/
def tokenIsAscii (x : List Char) : Bool :=
  x.all (fun c => decide (c.toNat < 128))

/-- `Vec::pop`: remove and return the last element (the stack top). -/
def popTop (s : List Int) : Option (Int × List Int) :=
  match s.getLast? with
  | some a => some (a, s.dropLast)
  | none => none

/-- `stack.extend(1..=count)`: the ascending sequence `1, ..., count`,
empty when `count < 1`. -/
def iotaList (count : Int) : List Int :=
  (List.range count.toNat).map (fun k => (k : Int) + 1)

/-- `stack.iter().copied().reduce(op)`: fold the stack bottom-to-top with the
first element as the accumulator; `none` on an empty stack.  Division inside
the fold can panic, hence the `Except`. -/
def reduceM (op : BinOp) : List Int → Except PanicKind (Option Int)
  | [] => Except.ok none
  | a :: rest => Except.map some (List.foldlM (applyOp op) a rest)

/-- The apostrophe character, code point 39. -/
def quoteChar : Char := Char.ofNat 39

/-- The error text `format!("couldn't parse '{x}'")`. -/
def couldntParse (x : List Char) : String :=
  String.mk (['c', 'o', 'u', 'l', 'd', 'n', quoteChar, 't', ' ',
              'p', 'a', 'r', 's', 'e', ' ', quoteChar] ++ x ++ [quoteChar])

/-- One iteration of the `for x in inp.split_whitespace()` loop in `parse`,
acting on one token.  Every `continue` of the source is a return here; the
trailing `err = ...` assignment is the shared fallthrough of the last
let-chain.  Note that in the binary-operator branch the first `stack.pop()`
has already happened when the second one fails, exactly as in the Rust
let-chain, so a lone operand is lost. -/
def step (s : Res) (x : List Char) : Except PanicKind Res :=
  if tokenIsAscii x = false then
    Except.ok s
  else match hexLit? x with
  | some num => Except.ok { s with stack := s.stack ++ [num], int_format := IntFormat.Hex }
  | none =>
  match decLit? x with
  | some num => Except.ok { s with stack := s.stack ++ [num] }
  | none =>
  match x with
  | [] => Except.ok s
  | head :: rest =>
    if head = 'i' then
      match popTop s.stack with
      | some (count, s1) => Except.ok { s with stack := s1 ++ iotaList count }
      | none => Except.ok { s with err := some "i needs a number" }
    else if head = '/' then
      match operator rest with
      | some op =>
        match reduceM op s.stack with
        | Except.error e => Except.error e
        | Except.ok none => Except.error PanicKind.unwrapNone
        | Except.ok (some r) => Except.ok { s with stack := [r] }
      | none => Except.ok { s with err := some "/<op>" }
    else if head = '.' then
      if rest = ['h'] then Except.ok { s with int_format := IntFormat.Hex }
      else if rest = ['d'] then Except.ok { s with int_format := IntFormat.Dec }
      else Except.ok s
    else
      match operator [head] with
      | some op =>
        match popTop s.stack with
        | some (a, s1) =>
          match popTop s1 with
          | some (b, s2) =>
            (match applyOp op b a with
             | Except.error e => Except.error e
             | Except.ok v => Except.ok { s with stack := s2 ++ [v] })
          | none => Except.ok { s with stack := s1, err := some (couldntParse x) }
        | none => Except.ok { s with err := some (couldntParse x) }
      | none => Except.ok { s with err := some (couldntParse x) }

/-- The token loop of `parse`, threading the mutable state through `step`. -/
def evalTokens (s : Res) : List (List Char) → Except PanicKind Res
  | [] => Except.ok s
  | x :: xs =>
    match step s x with
    | Except.error e => Except.error e
    | Except.ok s1 => evalTokens s1 xs

/-- Whitespace as recognized by `str::split_whitespace` on ASCII input
(Unicode `White_Space`: space, tab, LF, VT, FF, CR.  Whitespace beyond ASCII
is not modelled; no verified property involves it, and non-ASCII tokens are
skipped by the evaluator anyway). -/
def isWhite (c : Char) : Bool :=
  c == ' ' || c == '\t' || c == '\n' || c == Char.ofNat 11 || c == Char.ofNat 12 || c == '\r'

/-- Accumulator worker for `splitWhitespace`; `acc` holds the current token
reversed. -/
def splitWsAux : List Char → List Char → List (List Char)
  | acc, [] => if acc.isEmpty then [] else [acc.reverse]
  | acc, c :: cs =>
    if isWhite c then
      if acc.isEmpty then splitWsAux [] cs else acc.reverse :: splitWsAux [] cs
    else splitWsAux (c :: acc) cs

/-- `str::split_whitespace`: maximal non-empty runs of non-whitespace. -/
def splitWhitespace (s : List Char) : List (List Char) :=
  splitWsAux [] s

/-- Initial evaluator state: empty stack, no error, decimal format. -/
def initRes : Res :=
  { stack := [], err := none, int_format := IntFormat.Dec }

/-- `fn parse(inp: &str) -> Res`, with panics made explicit. -/
def parse (inp : String) : Except PanicKind Res :=
  evalTokens initRes (splitWhitespace inp.toList)

/-- `format!("{}", x)` for an `i64`. -/
def fmtDec (x : Int) : String :=
  if x < 0 then "-" ++ String.mk (Nat.toDigits 10 (-x).toNat)
  else String.mk (Nat.toDigits 10 x.toNat)

/-- `format!("{:#x}", x)` for an `i64`: lowercase hex of the two's-complement
bit pattern, with a `0x` marker. -/
def fmtHexI64 (x : Int) : String :=
  "0x" ++ String.mk (Nat.toDigits 16 (x % (2 ^ 64)).toNat)

/-- `Res::render`: each stack element bottom-to-top, each followed by one
space, in the format selected by `int_format`.  The `err` field plays no
part. -/
def Res.render (r : Res) : String :=
  if r.int_format = IntFormat.Dec then
    r.stack.foldl (fun out x => out ++ fmtDec x ++ " ") ""
  else
    r.stack.foldl (fun out x => out ++ fmtHexI64 x ++ " ") ""

/-- The one-shot path of `main`: arguments after the program name joined with
single spaces; when the joined string is non-empty, `parse` runs once and
`render()` of the result plus a newline is printed, after which `main`
returns `Ok(())` (exit code 0).  `none` models taking the interactive branch
instead; `some (Except.error p)` models a panic escaping `parse` (abnormal
termination, nothing printed by `println!`). -/
def oneShotOut (args : List String) : Option (Except PanicKind String) :=
  let joined := String.intercalate " " args
  if joined = "" then none
  else some ((parse joined).map (fun r => r.render ++ "\n"))

instance instDecEqExcept {e a : Type} [DecidableEq e] [DecidableEq a] : DecidableEq (Except e a)
  | Except.error x, Except.error y =>
    if h : x = y then isTrue (by rw [h]) else isFalse (fun hc => h (by injection hc))
  | Except.error _, Except.ok _ => isFalse (fun hc => by injection hc)
  | Except.ok _, Except.error _ => isFalse (fun hc => by injection hc)
  | Except.ok x, Except.ok y =>
    if h : x = y then isTrue (by rw [h]) else isFalse (fun hc => h (by injection hc))

/-- Last-error-wins combination: the error recorded later in the pass (first
argument) survives; only when the pass recorded nothing does the earlier
value show through. -/
def errJoin : Option String → Option String → Option String
  | some m, _ => some m
  | none, e => e

/-- A token that makes the evaluator consume or replace stack entries: an
ASCII non-literal that triggers iota, a resolvable fold, or a binary operator
from the registry.  All other tokens leave every existing stack entry in
place. -/
def isOpTok (x : List Char) : Bool :=
  tokenIsAscii x && (hexLit? x).isNone && (decLit? x).isNone &&
    (match x with
     | [] => false
     | h :: rest => (h == 'i') || ((h == '/') && (operator rest).isSome) || (operator [h]).isSome)

/-- The literal value a token contributes, if any: the hex branch is tried
before the decimal branch, and non-ASCII tokens are skipped, exactly as in
`parse`. -/
def litVal? (x : List Char) : Option Int :=
  if tokenIsAscii x = true then
    match hexLit? x with
    | some v => some v
    | none => decLit? x
  else none

theorem popTop_nil : popTop [] = none := rfl

theorem popTop_concat (t : List Int) (a : Int) : popTop (t ++ [a]) = some (a, t) := by
  simp [popTop]

theorem hexLit?_of_ne_zero {c : Char} (cs : List Char) (h : ¬ c = '0') :
    hexLit? (c :: cs) = none := by
  unfold hexLit?
  split <;> simp_all

theorem decLit?_cons_none {c : Char} (cs : List Char) (h1 : decDigit? c = none)
    (h2 : ¬ c = '+') (h3 : ¬ c = '-') : decLit? (c :: cs) = none := by
  unfold decLit? parseSignedRadix
  split <;> simp_all [parseDigitsRange, digitsOf?]

theorem operator_inv {l : List Char} {op : BinOp} (h : operator l = some op) :
    l = ['p'] ∨ l = ['+'] ∨ l = ['m'] ∨ l = ['*'] ∨ l = ['d'] := by
  unfold operator at h
  split at h <;> simp_all

theorem operator_head_inv {h0 : Char} {op : BinOp} (h : operator [h0] = some op) :
    h0 = 'p' ∨ h0 = '+' ∨ h0 = 'm' ∨ h0 = '*' ∨ h0 = 'd' := by
  rcases operator_inv h with e | e | e | e | e <;>
    injection e with e1 _ <;> simp [e1]

theorem iotaList_of_lt_one {c : Int} (h : c < 1) : iotaList c = [] := by
  unfold iotaList
  rw [Int.toNat_of_nonpos (by omega)]
  rfl


theorem step_not_ascii (s : Res) {x : List Char} (h : tokenIsAscii x = false) :
    step s x = Except.ok s := by
  unfold step
  rw [h]
  rfl

theorem step_hexLit (s : Res) {x : List Char} {v : Int} (hA : tokenIsAscii x = true)
    (h : hexLit? x = some v) :
    step s x = Except.ok { s with stack := s.stack ++ [v], int_format := IntFormat.Hex } := by
  unfold step
  rw [hA, h]
  rfl

theorem step_decLit (s : Res) {x : List Char} {v : Int} (hA : tokenIsAscii x = true)
    (hhex : hexLit? x = none) (h : decLit? x = some v) :
    step s x = Except.ok { s with stack := s.stack ++ [v] } := by
  unfold step
  rw [hA, hhex, h]
  rfl

theorem step_iota (s : Res) (rest : List Char) (hA : tokenIsAscii ('i' :: rest) = true) :
    step s ('i' :: rest) =
      match popTop s.stack with
      | some (count, s1) => Except.ok { s with stack := s1 ++ iotaList count }
      | none => Except.ok { s with err := some "i needs a number" } := by
  have hhex : hexLit? ('i' :: rest) = none := hexLit?_of_ne_zero rest (by decide)
  have hdec : decLit? ('i' :: rest) = none :=
    decLit?_cons_none rest (by decide) (by decide) (by decide)
  unfold step
  rw [hA, hhex, hdec]
  rfl

theorem step_fold (s : Res) (rest : List Char) (hA : tokenIsAscii ('/' :: rest) = true) :
    step s ('/' :: rest) =
      match operator rest with
      | some op =>
        (match reduceM op s.stack with
         | Except.error e => Except.error e
         | Except.ok none => Except.error PanicKind.unwrapNone
         | Except.ok (some r) => Except.ok { s with stack := [r] })
      | none => Except.ok { s with err := some "/<op>" } := by
  have hhex : hexLit? ('/' :: rest) = none := hexLit?_of_ne_zero rest (by decide)
  have hdec : decLit? ('/' :: rest) = none :=
    decLit?_cons_none rest (by decide) (by decide) (by decide)
  unfold step
  rw [hA, hhex, hdec]
  rfl

theorem step_dot (s : Res) (rest : List Char) (hA : tokenIsAscii ('.' :: rest) = true) :
    step s ('.' :: rest) =
      (if rest = ['h'] then Except.ok { s with int_format := IntFormat.Hex }
       else if rest = ['d'] then Except.ok { s with int_format := IntFormat.Dec }
       else Except.ok s) := by
  have hhex : hexLit? ('.' :: rest) = none := hexLit?_of_ne_zero rest (by decide)
  have hdec : decLit? ('.' :: rest) = none :=
    decLit?_cons_none rest (by decide) (by decide) (by decide)
  unfold step
  rw [hA, hhex, hdec]
  rfl

theorem step_binop (s : Res) (head : Char) (rest : List Char) (op : BinOp)
    (hop : operator [head] = some op)
    (hA : tokenIsAscii (head :: rest) = true)
    (hdec : decLit? (head :: rest) = none) :
    step s (head :: rest) =
      match popTop s.stack with
      | some (a, s1) =>
        (match popTop s1 with
         | some (b, s2) =>
           (match applyOp op b a with
            | Except.error e => Except.error e
            | Except.ok v => Except.ok { s with stack := s2 ++ [v] })
         | none => Except.ok { s with stack := s1, err := some (couldntParse (head :: rest)) })
      | none => Except.ok { s with err := some (couldntParse (head :: rest)) } := by
  rcases operator_head_inv hop with e | e | e | e | e <;> subst e <;>
    simp only [operator, Option.some.injEq] at hop <;> subst hop <;>
    unfold step <;> rw [hA, hexLit?_of_ne_zero rest (by decide), hdec] <;> rfl

theorem step_unknown (s : Res) (head : Char) (rest : List Char)
    (hA : tokenIsAscii (head :: rest) = true)
    (hhex : hexLit? (head :: rest) = none)
    (hdec : decLit? (head :: rest) = none)
    (hi : ¬ head = 'i') (hs : ¬ head = '/') (hd : ¬ head = '.')
    (hop : operator [head] = none) :
    step s (head :: rest) = Except.ok { s with err := some (couldntParse (head :: rest)) } := by
  unfold step
  rw [hA, hhex, hdec]
  simp only [if_neg hi, if_neg hs, if_neg hd, hop]
  rfl



/-- C1: evaluating a fold token with a recognized operator on an empty stack
does not produce an advisory error: the embedded code aborts with the panic
of `Option::unwrap` on `None`, exactly where the Rust source calls
`stack.iter().copied().reduce(op).unwrap()`.  In particular `"/p"` on an
empty stack panics instead of yielding an error, contradicting the claim. -/
theorem C1_fold_empty_stack_panics :
    parse "/p" = Except.error PanicKind.unwrapNone ∧
    ∀ (rest : List Char) (op : BinOp) (e : Option String) (fmt : IntFormat),
      tokenIsAscii ('/' :: rest) = true →
      operator rest = some op →
      step ⟨[], e, fmt⟩ ('/' :: rest) = Except.error PanicKind.unwrapNone := by
  refine ⟨rfl, ?_⟩
  intro rest op e fmt hA hop
  rw [step_fold _ rest hA, hop]
  rfl

/-- C2: applying the divide operator with a zero divisor does not record an
advisory error: the embedded code aborts with the division-by-zero panic,
as Rust `i64` division does.  `"4 0 d"` panics instead of returning. -/
theorem C2_div_by_zero_panics :
    parse "4 0 d" = Except.error PanicKind.divByZero ∧
    applyOp BinOp.div 4 0 = Except.error PanicKind.divByZero :=
  ⟨rfl, rfl⟩

/-- C3 counterexample: the token `p` resolves via the registry and is
processed with exactly one element on the stack; the claim says the stack is
left exactly as before (`[5]`), but the evaluator pops the lone operand and
loses it: the resulting stack is `[]`. -/
theorem C3_counterexample :
    step ⟨[5], none, IntFormat.Dec⟩ ['p'] =
      Except.ok ⟨[], some (couldntParse ['p']), IntFormat.Dec⟩ ∧
    parse "5 p" = Except.ok ⟨[], some (couldntParse ['p']), IntFormat.Dec⟩ ∧
    ([] : List Int) ≠ [5] :=
  ⟨rfl, rfl, by decide⟩

/-- C3 (amended): when a token whose first character resolves via the
registry is processed with fewer than two stack elements, the error
`couldn't parse '<token>'` is recorded; the stack is unchanged when it was
empty, but when it held exactly one element that element is popped and lost
(the first `pop` of the let-chain happens before the second one fails). -/
theorem C3_missing_operand_amended (head : Char) (rest : List Char) (op : BinOp)
    (e : Option String) (fmt : IntFormat)
    (hop : operator [head] = some op)
    (hA : tokenIsAscii (head :: rest) = true)
    (hdec : decLit? (head :: rest) = none) :
    step ⟨[], e, fmt⟩ (head :: rest) =
      Except.ok ⟨[], some (couldntParse (head :: rest)), fmt⟩ ∧
    ∀ b : Int, step ⟨[b], e, fmt⟩ (head :: rest) =
      Except.ok ⟨[], some (couldntParse (head :: rest)), fmt⟩ := by
  constructor
  · rw [step_binop _ head rest op hop hA hdec]
    rfl
  · intro b
    rw [step_binop _ head rest op hop hA hdec]
    simp only [show popTop [b] = some (b, []) from popTop_concat [] b]
    rfl

/-- C3 amended, instantiated: token `p` on the empty stack records the error
and leaves the stack empty; on the stack `[5]` it records the error and the
`5` is lost. -/
theorem C3_missing_operand_witness :
    step ⟨[], none, IntFormat.Dec⟩ ['p'] =
      Except.ok ⟨[], some (couldntParse ['p']), IntFormat.Dec⟩ ∧
    step ⟨[(5 : Int)], none, IntFormat.Dec⟩ ['p'] =
      Except.ok ⟨[], some (couldntParse ['p']), IntFormat.Dec⟩ := by
  have h := C3_missing_operand_amended 'p' [] BinOp.add none IntFormat.Dec rfl (by decide) (by decide)
  exact ⟨h.1, h.2 5⟩

/-- C4: a fold token `/rest` with a resolvable operator replaces the whole
non-empty stack by the left-fold of its elements bottom-to-top (panicking
only if a division inside the fold panics); with an unresolvable operator
name it records the literal error `/<op>` and leaves the stack untouched;
`"1 2 3 /p"` folds to the stack `[6]`. -/
theorem C4_fold_semantics :
    (∀ (rest : List Char) (op : BinOp) (e : Option String) (fmt : IntFormat) (a : Int) (t : List Int),
      tokenIsAscii ('/' :: rest) = true →
      operator rest = some op →
      step ⟨a :: t, e, fmt⟩ ('/' :: rest) =
        Except.map (fun v => (⟨[v], e, fmt⟩ : Res)) (List.foldlM (applyOp op) a t))
    ∧ (∀ (rest : List Char) (s : Res),
      tokenIsAscii ('/' :: rest) = true →
      operator rest = none →
      step s ('/' :: rest) = Except.ok ⟨s.stack, some "/<op>", s.int_format⟩)
    ∧ parse "1 2 3 /p" = Except.ok ⟨[6], none, IntFormat.Dec⟩ := by
  refine ⟨?_, ?_, rfl⟩
  · intro rest op e fmt a t hA hop
    rw [step_fold _ rest hA, hop]
    cases hX : List.foldlM (applyOp op) a t with
    | error p => simp [reduceM, hX, Except.map]
    | ok v => simp [reduceM, hX, Except.map]
  · intro rest s hA hop
    rw [step_fold s rest hA, hop]

/-- C4, instantiated: folding `[1, 2, 3]` with `/p` yields the stack `[6]`,
and the unknown fold operator `z` records the error `/<op>` and leaves the
stack `[1, 2, 3]` untouched. -/
theorem C4_fold_witness :
    step ⟨[1, 2, 3], none, IntFormat.Dec⟩ ['/', 'p'] =
      Except.ok ⟨[6], none, IntFormat.Dec⟩ ∧
    step ⟨[1, 2, 3], none, IntFormat.Dec⟩ ['/', 'z'] =
      Except.ok ⟨[1, 2, 3], some "/<op>", IntFormat.Dec⟩ := by
  constructor
  · have h := C4_fold_semantics.1 ['p'] BinOp.add none IntFormat.Dec 1 [2, 3] (by decide) rfl
    exact h
  · exact C4_fold_semantics.2.1 ['z'] ⟨[1, 2, 3], none, IntFormat.Dec⟩ (by decide) rfl

/-- C5: a token whose first character is `i` pops the top of a non-empty
stack as `count` and appends the sequence `1, ..., count` (empty when
`count < 1`, silently); on an empty stack it records the error
`i needs a number` and changes nothing.  `"5 i"` yields `[1, 2, 3, 4, 5]` and
`"0 i"` yields the empty stack, both without error. -/
theorem C5_iota_semantics :
    (∀ (rest : List Char) (e : Option String) (fmt : IntFormat),
      tokenIsAscii ('i' :: rest) = true →
      step ⟨[], e, fmt⟩ ('i' :: rest) = Except.ok ⟨[], some "i needs a number", fmt⟩
      ∧ ∀ (t : List Int) (c : Int),
        step ⟨t ++ [c], e, fmt⟩ ('i' :: rest) = Except.ok ⟨t ++ iotaList c, e, fmt⟩)
    ∧ (∀ c : Int, c < 1 → iotaList c = [])
    ∧ parse "5 i" = Except.ok ⟨[1, 2, 3, 4, 5], none, IntFormat.Dec⟩
    ∧ parse "0 i" = Except.ok ⟨[], none, IntFormat.Dec⟩ := by
  refine ⟨?_, fun c h => iotaList_of_lt_one h, rfl, rfl⟩
  intro rest e fmt hA
  constructor
  · rw [step_iota _ rest hA]
    rfl
  · intro t c
    rw [step_iota _ rest hA]
    simp only [Res.stack, popTop_concat t c]

/-- C5, instantiated: `i` on the empty stack records `i needs a number`;
`i` on the stack `[5]` yields `[1, 2, 3, 4, 5]`; a count below one yields the
empty sequence. -/
theorem C5_iota_witness :
    step ⟨[], none, IntFormat.Dec⟩ ['i'] =
      Except.ok ⟨[], some "i needs a number", IntFormat.Dec⟩ ∧
    step ⟨[(5 : Int)], none, IntFormat.Dec⟩ ['i'] =
      Except.ok ⟨[1, 2, 3, 4, 5], none, IntFormat.Dec⟩ ∧
    iotaList (-3) = [] := by
  refine ⟨(C5_iota_semantics.1 [] none IntFormat.Dec (by decide)).1, ?_,
    C5_iota_semantics.2.1 (-3) (by decide)⟩
  exact (C5_iota_semantics.1 [] none IntFormat.Dec (by decide)).2 [] 5

/-- C10: a binary-operator token applied with at least two stack elements
pops the top `a`, then `b`, and pushes `op(b, a)` — the left argument is the
second-from-top element.  `"8 2 d"` yields `[4]` (8 divided by 2). -/
theorem C10_operand_order :
    (∀ (head : Char) (rest : List Char) (op : BinOp) (e : Option String) (fmt : IntFormat)
        (t : List Int) (b a v : Int),
      operator [head] = some op →
      tokenIsAscii (head :: rest) = true →
      decLit? (head :: rest) = none →
      applyOp op b a = Except.ok v →
      step ⟨t ++ [b, a], e, fmt⟩ (head :: rest) = Except.ok ⟨t ++ [v], e, fmt⟩)
    ∧ parse "8 2 d" = Except.ok ⟨[4], none, IntFormat.Dec⟩ := by
  refine ⟨?_, rfl⟩
  intro head rest op e fmt t b a v hop hA hdec happ
  rw [step_binop _ head rest op hop hA hdec]
  have h1 : popTop (t ++ [b, a]) = some (a, t ++ [b]) := by
    rw [show t ++ [b, a] = (t ++ [b]) ++ [a] by simp]
    exact popTop_concat (t ++ [b]) a
  simp only [h1, popTop_concat t b, happ]

/-- C10, instantiated: the token `d` on the stack `[8, 2]` divides 8 by 2 and
yields the stack `[4]`. -/
theorem C10_operand_order_witness :
    step ⟨[(8 : Int), 2], none, IntFormat.Dec⟩ ['d'] =
      Except.ok ⟨[4], none, IntFormat.Dec⟩ :=
  C10_operand_order.1 'd' [] BinOp.div none IntFormat.Dec [] 8 2 4 rfl (by decide) (by decide) rfl


theorem step_empty (s : Res) : step s [] = Except.ok s := rfl

theorem step_err (st : List Int) (fmt : IntFormat) (e : Option String) (x : List Char) :
    step ⟨st, e, fmt⟩ x =
      Except.map (fun r => ⟨r.stack, errJoin r.err e, r.int_format⟩) (step ⟨st, none, fmt⟩ x) := by
  unfold step
  dsimp only
  repeat' split
  all_goals simp_all [errJoin, Except.map]

theorem evalTokens_err (toks : List (List Char)) :
    ∀ (st : List Int) (fmt : IntFormat) (e : Option String),
    evalTokens ⟨st, e, fmt⟩ toks =
      Except.map (fun r => ⟨r.stack, errJoin r.err e, r.int_format⟩)
        (evalTokens ⟨st, none, fmt⟩ toks) := by
  induction toks with
  | nil => intro st fmt e; rfl
  | cons x xs ih =>
    intro st fmt e
    simp only [evalTokens]
    rw [step_err st fmt e x]
    cases h : step ⟨st, none, fmt⟩ x with
    | error p => simp [Except.map]
    | ok r =>
      cases r with
      | mk rstack rerr rfmt =>
        simp only [Except.map]
        cases rerr with
        | none => simpa [errJoin] using ih rstack rfmt e
        | some m =>
          show evalTokens ⟨rstack, some m, rfmt⟩ xs = _
          rw [ih rstack rfmt (some m)]
          cases hN : evalTokens ⟨rstack, none, rfmt⟩ xs with
          | error p => simp [Except.map]
          | ok r2 => cases hr2 : r2.err <;> simp [Except.map, errJoin, hr2]

theorem evalTokens_append (t1 t2 : List (List Char)) : ∀ s : Res,
    evalTokens s (t1 ++ t2) =
      match evalTokens s t1 with
      | Except.ok s1 => evalTokens s1 t2
      | Except.error p => Except.error p := by
  induction t1 with
  | nil => intro s; rfl
  | cons x xs ih =>
    intro s
    simp only [List.cons_append, evalTokens]
    cases h : step s x with
    | error p => simp
    | ok s1 => simp [ih s1]

/-- C6: evaluation processes every token in left-to-right order and never
halts early because of a recorded error: the outcome (panic or not), final
stack and final format of a pass are independent of the error field it
starts with, and the final error is the last one recorded during the pass,
or the initial value when the pass records none (`errJoin`) — earlier errors
are overwritten, never accumulated.  Token lists decompose sequentially, and
`"foo bar"` ends with only the later error, `couldn't parse 'bar'`. -/
theorem C6_last_error_wins :
    (∀ (st : List Int) (fmt : IntFormat) (e : Option String) (toks : List (List Char)),
      evalTokens ⟨st, e, fmt⟩ toks =
        Except.map (fun r => ⟨r.stack, errJoin r.err e, r.int_format⟩)
          (evalTokens ⟨st, none, fmt⟩ toks))
    ∧ (∀ (s : Res) (t1 t2 : List (List Char)),
      evalTokens s (t1 ++ t2) =
        match evalTokens s t1 with
        | Except.ok s1 => evalTokens s1 t2
        | Except.error p => Except.error p)
    ∧ parse "foo bar" = Except.ok ⟨[], some (couldntParse ['b', 'a', 'r']), IntFormat.Dec⟩ :=
  ⟨fun st fmt e toks => evalTokens_err toks st fmt e,
   fun s t1 t2 => evalTokens_append t1 t2 s, rfl⟩


theorem digitsOf?_mem {dig : Char → Option Nat} :
    ∀ (l : List Char) (ds : List Nat), digitsOf? dig l = some ds →
      ∀ c ∈ l, (dig c).isSome = true := by
  intro l
  induction l with
  | nil => intro ds _ c hc; cases hc
  | cons c0 cs ih =>
    intro ds h c hc
    unfold digitsOf? at h
    cases h0 : dig c0 with
    | none => simp [h0] at h
    | some d =>
      rw [h0] at h
      cases h1 : digitsOf? dig cs with
      | none => simp [h1] at h
      | some ds0 =>
        rcases List.mem_cons.mp hc with rfl | hmem
        · simp [h0]
        · exact ih ds0 h1 c hmem

theorem parseDigitsRange_digits {dig : Char → Option Nat} {base : Nat} {sign : Int}
    {ds : List Char} {v : Int} (h : parseDigitsRange dig base sign ds = some v) :
    ∀ c ∈ ds, (dig c).isSome = true := by
  unfold parseDigitsRange at h
  split at h
  · cases h
  · cases hD : digitsOf? dig ds with
    | none => rw [hD] at h; cases h
    | some vs => exact digitsOf?_mem ds vs hD

theorem hexDigit?_ascii : ∀ (c : Char) (d : Nat), hexDigit? c = some d → c.toNat < 128 := by
  intro c d h
  unfold hexDigit? at h
  split at h
  next h1 =>
    have h2 : c.toNat ≤ 57 := h1.2
    omega
  next =>
    split at h
    next h1 =>
      have h2 : c.toNat ≤ 102 := h1.2
      omega
    next =>
      split at h
      next h1 =>
        have h2 : c.toNat ≤ 70 := h1.2
        omega
      next => cases h

theorem parseSignedRadix_ascii {dig : Char → Option Nat} {base : Nat}
    (hdig : ∀ c d, dig c = some d → c.toNat < 128) :
    ∀ {s : List Char} {v : Int}, parseSignedRadix dig base s = some v →
      ∀ c ∈ s, c.toNat < 128 := by
  have fromDigits : ∀ {sign : Int} {l : List Char} {v : Int},
      parseDigitsRange dig base sign l = some v → ∀ c ∈ l, c.toNat < 128 := by
    intro sign l v h c hc
    have hd := parseDigitsRange_digits h c hc
    rcases Option.isSome_iff_exists.mp hd with ⟨d, hdd⟩
    exact hdig c d hdd
  intro s v h c hc
  unfold parseSignedRadix at h
  split at h
  · rcases List.mem_cons.mp hc with rfl | hmem
    · decide
    · exact fromDigits h c hmem
  · rcases List.mem_cons.mp hc with rfl | hmem
    · decide
    · exact fromDigits h c hmem
  · exact fromDigits h c hc

theorem hexLit?_ascii {x : List Char} {v : Int} (h : hexLit? x = some v) :
    tokenIsAscii x = true := by
  unfold hexLit? at h
  split at h
  · next rest =>
    simp only [tokenIsAscii, List.all_cons, List.all_eq_true, Bool.and_eq_true,
      decide_eq_true_eq]
    refine ⟨by decide, by decide, ?_⟩
    intro c hc
    exact parseSignedRadix_ascii hexDigit?_ascii h c hc
  · cases h


theorem step_format (s : Res) (x : List Char) (r : Res) (h : step s x = Except.ok r) :
    r.int_format =
      (if (hexLit? x).isSome = true then IntFormat.Hex
       else if x = ['.', 'h'] then IntFormat.Hex
       else if x = ['.', 'd'] then IntFormat.Dec
       else s.int_format) := by
  by_cases hA : tokenIsAscii x = true
  · cases hhex : hexLit? x with
    | some v =>
      rw [step_hexLit s hA hhex] at h
      cases h
      simp [hhex]
    | none =>
      cases hdec : decLit? x with
      | some v =>
        rw [step_decLit s hA hhex hdec] at h
        cases h
        have h1 : ¬ x = ['.', 'h'] := by
          intro hx; subst hx
          rw [show decLit? ['.', 'h'] = none from by decide] at hdec
          cases hdec
        have h2 : ¬ x = ['.', 'd'] := by
          intro hx; subst hx
          rw [show decLit? ['.', 'd'] = none from by decide] at hdec
          cases hdec
        simp [hhex, h1, h2]
      | none =>
        cases x with
        | nil =>
          rw [step_empty s] at h
          cases h
          simp [hhex]
        | cons head rest =>
          by_cases hi : head = 'i'
          · subst hi
            rw [step_iota s rest hA] at h
            have h1 : ¬ ('i' :: rest) = ['.', 'h'] := by
              intro hx; injection hx with hx1 _; exact absurd hx1 (by decide)
            have h2 : ¬ ('i' :: rest) = ['.', 'd'] := by
              intro hx; injection hx with hx1 _; exact absurd hx1 (by decide)
            have hfmt : r.int_format = s.int_format := by
              cases hp : popTop s.stack with
              | none => rw [hp] at h; cases h; rfl
              | some pr =>
                obtain ⟨count, s1⟩ := pr
                rw [hp] at h; cases h; rfl
            simp [hfmt, hhex, h1, h2]
          · by_cases hsl : head = '/'
            · subst hsl
              rw [step_fold s rest hA] at h
              have h1 : ¬ ('/' :: rest) = ['.', 'h'] := by
                intro hx; injection hx with hx1 _; exact absurd hx1 (by decide)
              have h2 : ¬ ('/' :: rest) = ['.', 'd'] := by
                intro hx; injection hx with hx1 _; exact absurd hx1 (by decide)
              have hfmt : r.int_format = s.int_format := by
                cases hopr : operator rest with
                | none => rw [hopr] at h; cases h; rfl
                | some op =>
                  simp only [hopr] at h
                  cases hr : reduceM op s.stack with
                  | error p => simp only [hr] at h; cases h
                  | ok o =>
                    cases o with
                    | none => simp only [hr] at h; cases h
                    | some rv => simp only [hr] at h; cases h; rfl
              simp [hfmt, hhex, h1, h2]
            · by_cases hdot : head = '.'
              · subst hdot
                rw [step_dot s rest hA] at h
                by_cases hrh : rest = ['h']
                · subst hrh
                  rw [if_pos rfl] at h
                  cases h
                  simp [hhex]
                · rw [if_neg hrh] at h
                  by_cases hrd : rest = ['d']
                  · subst hrd
                    rw [if_pos rfl] at h
                    cases h
                    have hne : ¬ (['.', 'd'] : List Char) = ['.', 'h'] := by decide
                    simp [hhex, hne]
                  · rw [if_neg hrd] at h
                    cases h
                    have h1 : ¬ ('.' :: rest) = ['.', 'h'] := by
                      intro hx; injection hx with _ hx2; exact hrh hx2
                    have h2 : ¬ ('.' :: rest) = ['.', 'd'] := by
                      intro hx; injection hx with _ hx2; exact hrd hx2
                    simp [hhex, h1, h2]
              · have h1 : ¬ (head :: rest) = ['.', 'h'] := by
                  intro hx; injection hx with hx1 _; exact hdot hx1
                have h2 : ¬ (head :: rest) = ['.', 'd'] := by
                  intro hx; injection hx with hx1 _; exact hdot hx1
                cases hop : operator [head] with
                | some op =>
                  rw [step_binop s head rest op hop hA hdec] at h
                  have hfmt : r.int_format = s.int_format := by
                    cases hp : popTop s.stack with
                    | none => simp only [hp] at h; cases h; rfl
                    | some pr =>
                      obtain ⟨a, s1⟩ := pr
                      simp only [hp] at h
                      cases hp1 : popTop s1 with
                      | none => simp only [hp1] at h; cases h; rfl
                      | some pr1 =>
                        obtain ⟨b, s2⟩ := pr1
                        simp only [hp1] at h
                        cases ha : applyOp op b a with
                        | error p => simp only [ha] at h; cases h
                        | ok v => simp only [ha] at h; cases h; rfl
                  simp [hfmt, hhex, h1, h2]
                | none =>
                  rw [step_unknown s head rest hA hhex hdec hi hsl hdot hop] at h
                  cases h
                  simp [hhex, h1, h2]
  · have hA2 : tokenIsAscii x = false := by simpa using hA
    rw [step_not_ascii s hA2] at h
    cases h
    have hhex : hexLit? x = none := by
      cases hh : hexLit? x with
      | none => rfl
      | some v => rw [hexLit?_ascii hh] at hA2; cases hA2
    have h1 : ¬ x = ['.', 'h'] := by
      intro hx; subst hx
      rw [show tokenIsAscii ['.', 'h'] = true from by decide] at hA2
      cases hA2
    have h2 : ¬ x = ['.', 'd'] := by
      intro hx; subst hx
      rw [show tokenIsAscii ['.', 'd'] = true from by decide] at hA2
      cases hA2
    simp [hhex, h1, h2]


/-- C7: the display format starts as `Dec` at the beginning of the pass, and
a token changes it exactly when it is a hex literal (to `Hex`) or the
directive `.h` (to `Hex`) or `.d` (to `Dec`); every other token leaves it
unchanged, so the value after the last such token governs rendering.
`".h 10 .d"` ends Decimal and renders `10 `; `"0x1f"` pushes 31, ends
Hexadecimal, and renders the hex literal `0x1f `. -/
theorem C7_display_format :
    initRes.int_format = IntFormat.Dec
    ∧ (∀ (s : Res) (x : List Char) (r : Res),
      step s x = Except.ok r →
      r.int_format =
        (if (hexLit? x).isSome = true then IntFormat.Hex
         else if x = ['.', 'h'] then IntFormat.Hex
         else if x = ['.', 'd'] then IntFormat.Dec
         else s.int_format))
    ∧ parse ".h 10 .d" = Except.ok ⟨[10], none, IntFormat.Dec⟩
    ∧ (⟨[10], none, IntFormat.Dec⟩ : Res).render = "10 "
    ∧ parse "0x1f" = Except.ok ⟨[31], none, IntFormat.Hex⟩
    ∧ (⟨[31], none, IntFormat.Hex⟩ : Res).render = "0x1f " :=
  ⟨rfl, step_format, rfl, rfl, rfl, rfl⟩

/-- C7, instantiated: the directive token `.h` turns the format from `Dec`
to `Hex`. -/
theorem C7_display_format_witness :
    (⟨[], none, IntFormat.Hex⟩ : Res).int_format =
      (if (hexLit? ['.', 'h']).isSome = true then IntFormat.Hex
       else if ['.', 'h'] = ['.', 'h'] then IntFormat.Hex
       else if ['.', 'h'] = ['.', 'd'] then IntFormat.Dec
       else (⟨[], none, IntFormat.Dec⟩ : Res).int_format) :=
  C7_display_format.2.1 ⟨[], none, IntFormat.Dec⟩ ['.', 'h'] ⟨[], none, IntFormat.Hex⟩ rfl



theorem step_no_op {x : List Char} (s : Res) (h : isOpTok x = false) :
    ∃ s2, step s x = Except.ok s2 ∧ s2.stack = s.stack ++ (litVal? x).toList := by
  by_cases hA : tokenIsAscii x = true
  · cases hhex : hexLit? x with
    | some v =>
      refine ⟨_, step_hexLit s hA hhex, ?_⟩
      simp [litVal?, hA, hhex]
    | none =>
      cases hdec : decLit? x with
      | some v =>
        refine ⟨_, step_decLit s hA hhex hdec, ?_⟩
        simp [litVal?, hA, hhex, hdec]
      | none =>
        have hlit : litVal? x = none := by simp [litVal?, hA, hhex, hdec]
        simp only [isOpTok, hA, hhex, hdec, Option.isNone_none, Bool.true_and] at h
        cases x with
        | nil => exact ⟨s, step_empty s, by simp [hlit]⟩
        | cons head rest =>
          simp only [Bool.or_eq_false_iff] at h
          have hi : ¬ head = 'i' := by simpa using h.1.1
          have hop : operator [head] = none := by
            have h3 := h.2
            cases ho : operator [head] with
            | none => rfl
            | some o => rw [ho] at h3; cases h3
          by_cases hsl : head = '/'
          · subst hsl
            have hrest : operator rest = none := by
              have h4 := h.1.2
              simp only [beq_self_eq_true, Bool.true_and] at h4
              cases ho : operator rest with
              | none => rfl
              | some o => rw [ho] at h4; cases h4
            exact ⟨_, by rw [step_fold s rest hA, hrest], by simp [hlit]⟩
          · by_cases hdot : head = '.'
            · subst hdot
              by_cases hrh : rest = ['h']
              · exact ⟨_, by rw [step_dot s rest hA, if_pos hrh], by simp [hlit]⟩
              · by_cases hrd : rest = ['d']
                · exact ⟨_, by rw [step_dot s rest hA, if_neg hrh, if_pos hrd], by simp [hlit]⟩
                · exact ⟨s, by rw [step_dot s rest hA, if_neg hrh, if_neg hrd], by simp [hlit]⟩
            · exact ⟨_, step_unknown s head rest hA hhex hdec hi hsl hdot hop, by simp [hlit]⟩
  · have hA2 : tokenIsAscii x = false := by simpa using hA
    exact ⟨s, step_not_ascii s hA2, by simp [litVal?, hA2]⟩

theorem evalTokens_no_ops (toks : List (List Char)) :
    ∀ s : Res, (∀ x ∈ toks, isOpTok x = false) →
      ∃ r, evalTokens s toks = Except.ok r ∧
        r.stack = s.stack ++ toks.filterMap litVal? := by
  induction toks with
  | nil => intro s _; exact ⟨s, rfl, by simp⟩
  | cons x xs ih =>
    intro s hall
    obtain ⟨s2, hstep, hstack⟩ := step_no_op s (hall x (List.mem_cons_self x xs))
    obtain ⟨r, hr, hrstack⟩ := ih s2 (fun y hy => hall y (List.mem_cons_of_mem x hy))
    refine ⟨r, ?_, ?_⟩
    · simp [evalTokens, hstep, hr]
    · rw [hrstack, hstack]
      cases hl : litVal? x <;> simp [List.filterMap_cons, hl]

/-- C8: a token sequence containing no operator tokens (no iota token, no
resolvable fold token, no registry binary-operator token) evaluates without
panicking to a final stack that is exactly the sequence of successfully
parsed literals — hex `0x` literals and decimal literals — in their original
left-to-right order. -/
theorem C8_literals_only (toks : List (List Char))
    (h : ∀ x ∈ toks, isOpTok x = false) :
    ∃ r, evalTokens initRes toks = Except.ok r ∧ r.stack = toks.filterMap litVal? := by
  simpa using evalTokens_no_ops toks initRes h

/-- C8, instantiated: `1 0x2 foo .h` has no operator tokens and evaluates to
the stack of its parsed literals `[1, 2]` in order. -/
theorem C8_literals_only_witness :
    ∃ r, evalTokens initRes [['1'], ['0', 'x', '2'], ['f', 'o', 'o'], ['.', 'h']] =
        Except.ok r ∧
      r.stack = [['1'], ['0', 'x', '2'], ['f', 'o', 'o'], ['.', 'h']].filterMap litVal? :=
  C8_literals_only _ (by decide)



theorem render_err_irrelevant (st : List Int) (e : Option String) (f : IntFormat) :
    Res.render ⟨st, e, f⟩ = Res.render ⟨st, none, f⟩ := rfl

/-- C9 counterexample: with the single argument `foo` an error survives the
pass (`couldn't parse 'foo'`), but the one-shot path prints only the
rendered (empty) stack followed by a newline — the error text is not printed
in place of the stack, contradicting the claim. -/
theorem C9_counterexample :
    parse "foo" = Except.ok ⟨[], some (couldntParse ['f', 'o', 'o']), IntFormat.Dec⟩ ∧
    oneShotOut ["foo"] = some (Except.ok "\n") ∧
    couldntParse ['f', 'o', 'o'] ++ "\n" ≠ "\n" :=
  ⟨rfl, rfl, by decide⟩

/-- C9 (amended): in one-shot invocation the arguments are joined with
single spaces, evaluated once, and the rendered stack followed by a newline
is printed, after which the process exits successfully — even when an
evaluation error occurred; the surviving error text plays no part in the
output (it is never printed). -/
theorem C9_one_shot_amended (args : List String) (r : Res)
    (hne : ¬ String.intercalate " " args = "")
    (h : parse (String.intercalate " " args) = Except.ok r) :
    oneShotOut args = some (Except.ok (Res.render ⟨r.stack, none, r.int_format⟩ ++ "\n")) := by
  unfold oneShotOut
  rw [if_neg hne, h]
  cases r with
  | mk st e f => rw [Except.map, render_err_irrelevant]

/-- C9 amended, instantiated: `foo` leaves an error in the result, yet the
one-shot output is the rendered empty stack plus newline and the run ends in
the success path. -/
theorem C9_one_shot_witness :
    oneShotOut ["foo"] =
      some (Except.ok (Res.render ⟨[], none, IntFormat.Dec⟩ ++ "\n")) :=
  C9_one_shot_amended ["foo"] ⟨[], some (couldntParse ['f', 'o', 'o']), IntFormat.Dec⟩
    (by decide) rfl


/-- C1, instantiated: the fold token `/p` on the empty stack aborts with the
unwrap panic. -/
theorem C1_fold_empty_stack_witness :
    step ⟨[], none, IntFormat.Dec⟩ ['/', 'p'] = Except.error PanicKind.unwrapNone :=
  C1_fold_empty_stack_panics.2 ['p'] BinOp.add none IntFormat.Dec (by decide) rfl


end RpnCalc
